import Mathlib

/-!
Verification of the ghcc repository-tracking program against its
natural-language specification.

The development shallowly embeds the two source files:

* `ghcc/database.py` — a MongoDB-backed store of per-repository
  compilation records.  The collection is modelled as a `List RepoEntry`
  in natural (insertion) order; `find_one` is `List.find?`, `insert_one`
  appends at the end, and `update_one` keyed on the `_id` of a previously
  found document replaces exactly the first key-matching record.
* `analyze_fails.py` — log parsing, change detection, sampling of failed
  repositories and reconciliation of discovered Makefile directories
  against the store.

Machine integers do not overflow anywhere in the sources (Python ints are
unbounded), so counts are `Nat` and `repo_size` is `Int` (it can be `-1`).
Python exceptions are modelled with `Except`: an error value means the
exception was raised, in which case no store mutation has happened.
-/

/-- One build-script record inside a repository entry
(`ghcc/database.py`, `class RepoMakefileEntry`). -/
structure RepoMakefileEntry where
  directory : String
  successful : Bool
  num_binaries : Nat
  binaries : List String
  sha256 : List String
  deriving DecidableEq

/-- One persisted repository record (`ghcc/database.py`, `class RepoEntry`).
The document inserted by `add_repo` also carries `repo_size` and
`num_binaries`, so the model includes both fields. -/
structure RepoEntry where
  repo_owner : String
  repo_name : String
  clone_successful : Bool
  repo_size : Int
  compiled : Bool
  num_makefiles : Nat
  num_binaries : Nat
  makefiles : List RepoMakefileEntry
  deriving DecidableEq

/-- Errors raised by the store.  Both are Python `ValueError`s; they are
distinguished by their raise site and carry the exact message the source
formats. -/
inductive DBError where
  | notFound (msg : String)
  | lengthMismatch (msg : String)
  deriving DecidableEq

/-- The Mongo filter `{"repo_owner": owner, "repo_name": name}` as a
predicate on documents. -/
def keyMatch (o n : String) (e : RepoEntry) : Bool :=
  e.repo_owner == o && e.repo_name == n

/-- `Database.get`: `find_one` returns the first record matching the key,
or `None` when absent. -/
def Database.get (db : List RepoEntry) (o n : String) : Option RepoEntry :=
  db.find? (keyMatch o n)

/-- The record `insert_one` writes in `Database.add_repo`. -/
def newRecord (o n : String) (clone_successful : Bool) (repo_size : Int) :
    RepoEntry :=
  { repo_owner := o
    repo_name := n
    clone_successful := clone_successful
    repo_size := repo_size
    compiled := false
    num_makefiles := 0
    num_binaries := 0
    makefiles := [] }

/-- `Database.add_repo`: insert a fresh record only when `get` finds
nothing; otherwise the call does nothing. -/
def Database.add_repo (db : List RepoEntry) (o n : String)
    (clone_successful : Bool) (repo_size : Int) : List RepoEntry :=
  match Database.get db o n with
  | some _ => db
  | none => db ++ [newRecord o n clone_successful repo_size]

/-- Message of the "not found" `ValueError` in `update_makefile`. -/
def notFoundMsg (o n : String) : String :=
  "Specified repository " ++ o ++ "/" ++ n ++ " does not exist"

/-- Message of the "length mismatch" `ValueError` in `update_makefile`. -/
def lengthMismatchMsg (stored given : Nat) : String :=
  "Number of makefiles stored in entry (" ++ toString stored ++
    ") does not match provided list (" ++ toString given ++ ")"

/-- `sum(len(makefile["binaries"]) for makefile in makefiles)`. -/
def sumBinaries (mks : List RepoMakefileEntry) : Nat :=
  (mks.map (fun m => m.binaries.length)).sum

/-- The `$set` document applied by `update_one` in `update_makefile`:
only the four listed fields change, the rest of the record is kept. -/
def updatedEntry (e : RepoEntry) (mks : List RepoMakefileEntry) : RepoEntry :=
  { e with
    compiled := true
    num_makefiles := mks.length
    num_binaries := sumBinaries mks
    makefiles := mks }

/-- `update_one` keyed on the `_id` of the first key-matching document:
replace exactly that record, leaving every other record in place. -/
def replaceFirst {α : Type} (p : α → Bool) (e' : α) : List α → List α
  | [] => []
  | e :: rest => if p e then e' :: rest else e :: replaceFirst p e' rest

/-- `Database.update_makefile`.  Raises "not found" when `get` misses,
"length mismatch" when the stored `makefiles` list is non-empty of a
different length and the override is unset; otherwise applies the `$set`
update to the found record.  `result.matched_count == 1` holds by
construction because the update is keyed on the `_id` of the document
`get` just returned. -/
def Database.update_makefile (db : List RepoEntry) (o n : String)
    (makefiles : List RepoMakefileEntry) (ignore_length_mismatch : Bool) :
    Except DBError (List RepoEntry) :=
  match Database.get db o n with
  | none => Except.error (DBError.notFound (notFoundMsg o n))
  | some entry =>
    if !ignore_length_mismatch && entry.makefiles.length != 0
        && entry.makefiles.length != makefiles.length then
      Except.error (DBError.lengthMismatch
        (lengthMismatchMsg entry.makefiles.length makefiles.length))
    else
      Except.ok (replaceFirst (keyMatch o n) (updatedEntry entry makefiles) db)

/-- `Database._aggregate_sum`: the pipeline `$match {compiled: True}` then
`$group` summing the field produces one group when at least one document
matches and an empty cursor otherwise, in which case `next(cursor)` raises
`StopIteration`. -/
def Database.aggregate_sum (db : List RepoEntry) (field : RepoEntry → Nat) :
    Except String Nat :=
  match db.filter (fun e => e.compiled) with
  | [] => Except.error "StopIteration"
  | matched => Except.ok ((matched.map field).sum)

/-- `Database.count_makefiles`. -/
def Database.count_makefiles (db : List RepoEntry) : Except String Nat :=
  Database.aggregate_sum db (fun e => e.num_makefiles)

/-- `Database.count_binaries`. -/
def Database.count_binaries (db : List RepoEntry) : Except String Nat :=
  Database.aggregate_sum db (fun e => e.num_binaries)

/-- Store states reachable from the empty collection by `add_repo` and
successful `update_makefile` calls. -/
inductive Reachable : List RepoEntry → Prop where
  | init : Reachable []
  | add (db : List RepoEntry) (o n : String) (cs : Bool) (sz : Int) :
      Reachable db → Reachable (Database.add_repo db o n cs sz)
  | upd (db : List RepoEntry) (o n : String) (mks : List RepoMakefileEntry)
      (ign : Bool) (db' : List RepoEntry) : Reachable db →
      Database.update_makefile db o n mks ign = Except.ok db' → Reachable db'

/-!
## `analyze_fails.py` — log parsing

The script matches each log line against the regular expression

  `(?P<date_time>[0-9-]{10} [0-9:]{8}),\d{3} \w+: (?P<n_success>\d+) `
  `\((?P<n_partial>\d+)\) out of (?P<n_total>\d+) Makefile\(s\) in `
  `(?P<repo_owner>\w+)/(?P<repo_name>\w+) compiled \(partially\), `
  `yielding (?P<n_binaries>\d+) binaries`

using `regex.search`.  In this pattern every quantified character class is
immediately followed by a literal character that the class cannot match
(`\w+` by `:`, `/` or a space; `\d+` by a space or a closing parenthesis;
the counted classes are of fixed width), so the regex engine's greedy
matching with backtracking coincides with deterministic maximal-munch
parsing, and `search` is: try a maximal-munch match at each successive
start position, leftmost first.  The parser below implements exactly
that.  `\w` and `\d` are modelled at ASCII (letters, digits, underscore /
digits); the sources only ever meet ASCII log text.

Note that the named group `date_time` closes *before* the `,\d{3}`
milliseconds part: the captured timestamp is `YYYY-MM-DD HH:MM:SS`.
-/

/-- `\w` (ASCII): letter, digit or underscore. -/
def isWordChar (c : Char) : Bool := c.isAlphanum || c == '_'

/-- The character class `[0-9-]`. -/
def isDateChar (c : Char) : Bool := c.isDigit || c == '-'

/-- The character class `[0-9:]`. -/
def isTimeChar (c : Char) : Bool := c.isDigit || c == ':'

/-- Maximal munch: longest prefix whose characters satisfy `p`, plus the
rest of the input. -/
def munch (p : Char → Bool) : List Char → List Char × List Char
  | [] => ([], [])
  | c :: cs =>
    if p c then
      let (t, r) := munch p cs
      (c :: t, r)
    else ([], c :: cs)

/-- Numeric value of a digit string, as `int()` computes it. -/
def natOfDigits (ds : List Char) : Nat :=
  ds.foldl (fun acc c => 10 * acc + (c.toNat - 48)) 0

/-- `\d+` (greedy): one or more digits, returning the integer value. -/
def digits1 (cs : List Char) : Option (Nat × List Char) :=
  match munch Char.isDigit cs with
  | ([], _) => none
  | (ds, r) => some (natOfDigits ds, r)

/-- `\w+` (greedy): one or more word characters, returning the matched
string. -/
def word1 (cs : List Char) : Option (String × List Char) :=
  match munch isWordChar cs with
  | ([], _) => none
  | (ws, r) => some (String.mk ws, r)

/-- Match a literal character sequence. -/
def stripL : List Char → List Char → Option (List Char)
  | [], cs => some cs
  | _ :: _, [] => none
  | l :: ls, c :: cs => if c == l then stripL ls cs else none

/-- A counted character class such as `[0-9-]{10}`: exactly `k` characters
satisfying `p`, returning them and the rest. -/
def takeCount : Nat → (Char → Bool) → List Char → Option (List Char × List Char)
  | 0, _, cs => some ([], cs)
  | _ + 1, _, [] => none
  | k + 1, p, c :: cs =>
    if p c then (takeCount k p cs).map (fun tr => (c :: tr.1, tr.2)) else none

/-- The named capture groups of one matching log line.  `n_success` is
captured by the regex but never turned into a series. -/
structure ParsedLine where
  date_time : String
  n_success : Nat
  repo_owner : String
  repo_name : String
  v_part : Nat
  v_bin : Nat
  v_tot : Nat
  deriving DecidableEq

/-- The pattern up to and including the space after the milliseconds:
`(?P<date_time>[0-9-]{10} [0-9:]{8}),\d{3} `.  Returns the captured
`date_time` group (which excludes the `,\d{3}` part) and the rest. -/
def parseStamp (cs : List Char) : Option (String × List Char) := do
  let (d10, cs) ← takeCount 10 isDateChar cs
  let cs ← stripL [' '] cs
  let (t8, cs) ← takeCount 8 isTimeChar cs
  let cs ← stripL [','] cs
  let (_, cs) ← takeCount 3 Char.isDigit cs
  let cs ← stripL [' '] cs
  some (String.mk (d10 ++ [' '] ++ t8), cs)

/-- `\w+: (?P<n_success>\d+) \((?P<n_partial>\d+)\) out of
(?P<n_total>\d+)` — the log level and the three leading counts. -/
def parseCounts (cs : List Char) : Option (Nat × Nat × Nat × List Char) := do
  let (_lvl, cs) ← word1 cs
  let cs ← stripL (": ".data) cs
  let (nsucc, cs) ← digits1 cs
  let cs ← stripL (" (".data) cs
  let (npart, cs) ← digits1 cs
  let cs ← stripL (") out of ".data) cs
  let (ntot, cs) ← digits1 cs
  some (nsucc, npart, ntot, cs)

/-- ` Makefile\(s\) in (?P<repo_owner>\w+)/(?P<repo_name>\w+) compiled
\(partially\), yielding (?P<n_binaries>\d+) binaries` — `search` does not
anchor the end, so trailing input after `binaries` is allowed. -/
def parseRepoTail (cs : List Char) : Option (String × String × Nat) := do
  let cs ← stripL (" Makefile(s) in ".data) cs
  let (owner, cs) ← word1 cs
  let cs ← stripL ['/'] cs
  let (nameW, cs) ← word1 cs
  let cs ← stripL (" compiled (partially), yielding ".data) cs
  let (nbin, cs) ← digits1 cs
  let _ ← stripL (" binaries".data) cs
  some (owner, nameW, nbin)

/-- Match the whole pattern starting exactly at the head of `cs`
(see the module comment for why maximal munch is equivalent to the
regex here). -/
def matchAt (cs : List Char) : Option ParsedLine := do
  let (dt, cs) ← parseStamp cs
  let (nsucc, npart, ntot, cs) ← parseCounts cs
  let (owner, nameW, nbin) ← parseRepoTail cs
  some { date_time := dt
         n_success := nsucc
         repo_owner := owner
         repo_name := nameW
         v_part := npart
         v_bin := nbin
         v_tot := ntot }

/-- `regex.search`: try each start position left to right.  (The empty
suffix can never match — the pattern needs at least one character — so
stopping at `[]` is exact.) -/
def searchAux : List Char → Option ParsedLine
  | [] => none
  | c :: cs =>
    match matchAt (c :: cs) with
    | some p => some p
    | none => searchAux cs

/-- `regex.search(line)` on one log line. -/
def searchLine (line : String) : Option ParsedLine :=
  searchAux line.data

/-!
## `analyze_fails.py` — series extraction and analysis

`InfoDict` models the per-repository `Dict[str, List[Tuple[str, int]]]`
whose keys are exactly the tracked `TAGS = ["n_partial", "n_binaries",
"n_total"]`; since the key set is fixed by construction the dict is a
record with one list per tag (`n_part` holds the `"n_partial"` series and
so on; the field names shorten the tags but keep their order).  The outer
`defaultdict` is an association list in key-insertion order.
-/

/-- The per-repository series dictionary: one `(date_time, value)` list
per tracked tag, in the order of `TAGS`. -/
structure InfoDict where
  n_part : List (String × Nat)
  n_bin : List (String × Nat)
  n_tot : List (String × Nat)
  deriving DecidableEq

/-- The fresh value a `defaultdict` lookup creates:
`{tag: [] for tag in TAGS}`. -/
def emptyInfo : InfoDict := { n_part := [], n_bin := [], n_tot := [] }

/-- The body of the per-match loop `for tag in TAGS: ... append`, which
appends one `(date_time, value)` sample to each of the three series. -/
def appendSample (p : ParsedLine) (info : InfoDict) : InfoDict :=
  { n_part := info.n_part ++ [(p.date_time, p.v_part)]
    n_bin := info.n_bin ++ [(p.date_time, p.v_bin)]
    n_tot := info.n_tot ++ [(p.date_time, p.v_tot)] }

/-- Record one matched line under its repository key in the association
list: update the existing entry in place, or append a fresh
`defaultdict` entry at the end (dict insertion order). -/
def record (acc : List (String × InfoDict)) (key : String) (p : ParsedLine) :
    List (String × InfoDict) :=
  match acc with
  | [] => [(key, appendSample p emptyInfo)]
  | (k, info) :: rest =>
    if k = key then (k, appendSample p info) :: rest
    else (k, info) :: record rest key p

/-- The body of the `for idx, line in enumerate(logs)` loop: a matching
line records its three samples under the key
`f"{repo_owner}/{repo_name}"`, a non-matching line is silently skipped. -/
def processLine (acc : List (String × InfoDict)) (line : String) :
    List (String × InfoDict) :=
  match searchLine line with
  | none => acc
  | some p => record acc (p.repo_owner ++ "/" ++ p.repo_name) p

/-- Python `str.split(sep)` for a one-character separator, on the
character list: the empty string yields one empty piece, a trailing
separator a trailing empty piece, exactly as in Python. -/
def pySplitChar (sep : Char) : List Char → List (List Char)
  | [] => [[]]
  | c :: cs =>
    match pySplitChar sep cs with
    | [] => [[]]
    | l :: rest => if c = sep then [] :: l :: rest else (c :: l) :: rest

/-- `str.split("/")` as a list of strings. -/
def pySplitSlash (s : String) : List String :=
  (pySplitChar '/' s.data).map String.mk

/-- `str.split("\n")`. -/
def splitNl (cs : List Char) : List (List Char) :=
  pySplitChar '\n' cs

/-- `analyze_logs`: split the log text on newlines (`str.split("\n")`)
and process every line in order. -/
def analyze_logs (text : String) : List (String × InfoDict) :=
  ((splitNl text.data).map String.mk).foldl processLine []

/-- `all_equal(xs)`: `not xs or all(x == xs[0] for x in xs[1:])`. -/
def all_equal (xs : List Nat) : Bool :=
  match xs with
  | [] => true
  | x :: rest => rest.all (fun y => y == x)

/-- `info.values()` in tag-insertion order. -/
def infoValues (info : InfoDict) : List (List (String × Nat)) :=
  [info.n_part, info.n_bin, info.n_tot]

/-- `changed_repos`: keep the repositories for which some tag's recorded
values (`[v for _, v in vals]`) are not all equal; kept entries retain
their full series. -/
def changed_repos (ri : List (String × InfoDict)) : List (String × InfoDict) :=
  ri.filter (fun e => (infoValues e.2).any (fun vals => !all_equal (vals.map Prod.snd)))

/-- Python comparison of two `(str, int)` tuples of equal shape:
lexicographic — compare the strings, and on equal strings compare the
integers. -/
def pyPairLt (a b : String × Nat) : Bool :=
  if a.1 = b.1 then a.2 < b.2 else a.1 < b.1

/-- The filter condition `info["n_partial"][-1] < info["n_total"][-1]` of
the sampling step: Python `[-1]` is the last element (the lists are never
empty for a repository produced by `analyze_logs`, which always appends
to all three tags at once). -/
def lastPairLt (info : InfoDict) : Bool :=
  match info.n_part.getLast?, info.n_tot.getLast? with
  | some a, some b => pyPairLt a b
  | _, _ => false

/-- `repos_with_fail`: the candidate population of the sampler. -/
def repos_with_fail (ri : List (String × InfoDict)) : List String :=
  (ri.filter (fun e => lastPairLt e.2)).map Prod.fst

/-- Dictionary lookup `repo_info[repo]` for a key that is present. -/
def lookupInfo (ri : List (String × InfoDict)) (repo : String) : Option InfoDict :=
  (ri.find? (fun e => e.1 == repo)).map Prod.snd

/-- `_, val = repo_info[repo]["n_total"][-1]` — the latest recorded
`n_total` value of a repository (defaults are never reached on the keys
the script uses). -/
def lastTotalVal (ri : List (String × InfoDict)) (repo : String) : Nat :=
  ((((lookupInfo ri repo).getD emptyInfo).n_tot.getLast?).getD ("", 0)).2

/-- `np.random.choice(len(repos_with_fail), 100, replace=False)` followed
by `[repos_with_fail[x] for x in samples]`.  The pseudo-random draw is
abstracted as the function argument `choice`; numpy's documented contract
(`k` distinct indices below `n` on success, `ValueError` when `k > n`
with `replace=False`) is a hypothesis of the theorems. -/
def sampleFailed (choice : Nat → Nat → Except String (List Nat))
    (ri : List (String × InfoDict)) : Except String (List String) :=
  let rwf := repos_with_fail ri
  match choice rwf.length 100 with
  | Except.error e => Except.error e
  | Except.ok idxs => Except.ok (idxs.map (fun i => rwf.getD i ""))

/-- One iteration of the "remove repositories with more than 50
Makefiles" loop: keep the repository when its latest `n_total` value is
at most 50, otherwise report it (the script prints it) with its count. -/
def filterStep (ri : List (String × InfoDict))
    (acc : List String × List (String × Nat)) (repo : String) :
    List String × List (String × Nat) :=
  let val := lastTotalVal ri repo
  if val ≤ 50 then (acc.1 ++ [repo], acc.2)
  else (acc.1, acc.2 ++ [(repo, val)])

/-- The "remove repositories with more than 50 Makefiles" loop: returns
the kept sample and the reported skipped repositories, in draw order. -/
def filterLarge (ri : List (String × InfoDict)) (drawn : List String) :
    List String × List (String × Nat) :=
  drawn.foldl (filterStep ri) ([], [])

/-- A deterministic stand-in for the seeded `np.random.choice` draw,
satisfying numpy's contract: used to instantiate the sampler theorems. -/
def simpleChoice (n k : Nat) : Except String (List Nat) :=
  if k ≤ n then Except.ok (List.range k)
  else Except.error "Cannot take a larger sample than population when 'replace=False'"

/-!
## `analyze_fails.py` — reconciliation report

The CSV loop rebuilds, for one repository, the set of recorded-successful
Makefile directories from the store entry and emits one `(repo,
directory, status)` row per discovered Makefile.  Stored directories are
normalised by `"/".join([owner, name] + directory.split("/")[4:])` — the
first four `/`-separated segments are the storage-specific prefix of the
compilation host — and discovered paths (which `find_makefiles` yields
under the clone root `test_compile/owner/name`) by dropping their first
segment, so both sides are rendered as `owner/name/<path relative to the
repository root>`.
-/

/-- `"/".join([owner, name] + directory.split("/")[4:])`. -/
def normalizeStored (o n dir : String) : String :=
  String.intercalate "/" ([o, n] ++ (pySplitSlash dir).drop 4)

/-- `"/".join(makefile.split("/")[1:])`. -/
def normalizeDiscovered (makefile : String) : String :=
  String.intercalate "/" ((pySplitSlash makefile).drop 1)

/-- The `success_makefiles` set (as a list; only membership is used). -/
def successMakefiles (o n : String) (mks : List RepoMakefileEntry) : List String :=
  mks.map (fun m => normalizeStored o n m.directory)

/-- One CSV row `[repo, directory, status]` for a discovered Makefile. -/
def reconRow (repo : String) (success : List String) (makefile : String) :
    String × String × String :=
  let directory := normalizeDiscovered makefile
  (repo, directory, if success.contains directory then "" else "Failed")

/-- The per-repository body of the CSV loop.  `owner, name =
repo.split("/")` raises on a key that does not split in two;
`entry['makefiles']` on an absent entry (`None`) raises `TypeError` —
both are modelled as errors. -/
def reconReport (db : List RepoEntry) (repo : String)
    (discovered : List String) : Except String (List (String × String × String)) :=
  match pySplitSlash repo with
  | [o, n] =>
    match Database.get db o n with
    | none => Except.error "TypeError: 'NoneType' object is not subscriptable"
    | some entry =>
      Except.ok (discovered.map
        (reconRow repo (successMakefiles o n entry.makefiles)))
  | _ => Except.error "ValueError: unpacking repo.split failed"

/-!
## Helper lemmas
-/

/-- Replacing through a prefix of non-matching elements. -/
theorem replaceFirst_append {α : Type} (p : α → Bool) (e' : α) (pre : List α)
    (e : α) (post : List α) (hpre : ∀ x ∈ pre, p x = false) :
    replaceFirst p e' (pre ++ e :: post) =
      pre ++ replaceFirst p e' (e :: post) := by
  induction pre with
  | nil => simp
  | cons a rest ih =>
    have ha : p a = false := hpre a (List.mem_cons_self a rest)
    simp only [List.cons_append, replaceFirst, ha, Bool.false_eq_true, if_false,
      List.cons.injEq, true_and]
    exact ih (fun x hx => hpre x (List.mem_cons_of_mem a hx))

/-- C1: `update_makefile` raises "not found" iff the key is absent; raises
"length mismatch" iff an entry exists whose current `makefiles` list is
non-empty of a different length and the override is unset; otherwise it
succeeds, replacing exactly the first key-matching record with one whose
`compiled`, `num_makefiles`, `num_binaries` and `makefiles` fields are
overwritten as specified and whose other fields are untouched.  On either
error the result carries no store, i.e. the stored data is unchanged
(the Python exception is raised before `update_one` runs). -/
theorem update_makefile_spec (db : List RepoEntry) (o n : String)
    (mks : List RepoMakefileEntry) (ign : Bool) :
    ((∃ m, Database.update_makefile db o n mks ign =
        Except.error (DBError.notFound m)) ↔ Database.get db o n = none) ∧
    ((∃ m, Database.update_makefile db o n mks ign =
        Except.error (DBError.lengthMismatch m)) ↔
      (∃ e, Database.get db o n = some e ∧ ign = false ∧
        e.makefiles.length ≠ 0 ∧ e.makefiles.length ≠ mks.length)) ∧
    (∀ e, Database.get db o n = some e →
      (ign = true ∨ e.makefiles.length = 0 ∨ e.makefiles.length = mks.length) →
      ∃ pre post, db = pre ++ e :: post ∧
        (∀ x ∈ pre, keyMatch o n x = false) ∧
        Database.update_makefile db o n mks ign =
          Except.ok (pre ++ updatedEntry e mks :: post) ∧
        (updatedEntry e mks).compiled = true ∧
        (updatedEntry e mks).num_makefiles = mks.length ∧
        (updatedEntry e mks).num_binaries = sumBinaries mks ∧
        (updatedEntry e mks).makefiles = mks ∧
        (updatedEntry e mks).repo_owner = e.repo_owner ∧
        (updatedEntry e mks).repo_name = e.repo_name ∧
        (updatedEntry e mks).clone_successful = e.clone_successful ∧
        (updatedEntry e mks).repo_size = e.repo_size) := by
  cases hget : Database.get db o n with
  | none =>
    refine ⟨⟨fun _ => rfl, fun _ => ⟨notFoundMsg o n, ?_⟩⟩, ⟨?_, ?_⟩, ?_⟩
    · simp [Database.update_makefile, hget]
    · rintro ⟨m, hm⟩
      simp [Database.update_makefile, hget] at hm
    · rintro ⟨e, he, -⟩
      exact absurd he (by simp)
    · intro e he
      exact absurd he (by simp)
  | some entry =>
    have hcond : ∀ {b : Bool},
        (!ign && entry.makefiles.length != 0 && entry.makefiles.length != mks.length) = b →
        Database.update_makefile db o n mks ign =
          (if b then Except.error (DBError.lengthMismatch
              (lengthMismatchMsg entry.makefiles.length mks.length))
           else Except.ok (replaceFirst (keyMatch o n) (updatedEntry entry mks) db)) := by
      intro b hb
      simp [Database.update_makefile, hget, hb]
    constructor
    · constructor
      · rintro ⟨m, hm⟩
        rcases Bool.eq_false_or_eq_true
            (!ign && entry.makefiles.length != 0 && entry.makefiles.length != mks.length) with hb | hb
        · rw [hcond hb] at hm; simp at hm
        · rw [hcond hb] at hm; simp at hm
      · intro hnone
        exact absurd hnone (by simp)
    constructor
    · constructor
      · rintro ⟨m, hm⟩
        rcases Bool.eq_false_or_eq_true
            (!ign && entry.makefiles.length != 0 && entry.makefiles.length != mks.length) with hb | hb
        · simp only [Bool.and_eq_true, Bool.not_eq_true', bne_iff_ne] at hb
          exact ⟨entry, rfl, hb.1.1, hb.1.2, hb.2⟩
        · rw [hcond hb] at hm; simp at hm
      · rintro ⟨e, he, hign, h0, hlen⟩
        injection he with he
        have hA : (entry.makefiles.length != 0) = true := by
          rw [he]; exact bne_iff_ne.mpr h0
        have hB : (entry.makefiles.length != mks.length) = true := by
          rw [he]; exact bne_iff_ne.mpr hlen
        have hb : (!ign && entry.makefiles.length != 0 &&
            entry.makefiles.length != mks.length) = true := by
          rw [hign, hA, hB]; rfl
        refine ⟨lengthMismatchMsg entry.makefiles.length mks.length, ?_⟩
        rw [hcond hb, if_pos rfl]
    · intro e he hdis
      injection he with he
      subst he
      have hb : (!ign && entry.makefiles.length != 0 &&
          entry.makefiles.length != mks.length) = false := by
        rcases hdis with h | h | h
        · rw [h]; rfl
        · rw [h]; simp
        · rw [h]; simp
      have hok : Database.update_makefile db o n mks ign =
          Except.ok (replaceFirst (keyMatch o n) (updatedEntry entry mks) db) := by
        rw [hcond hb]; simp
      rcases List.find?_eq_some.mp hget with ⟨hpe, pre, post, hdb, hpre⟩
      refine ⟨pre, post, hdb, fun x hx => ?_, ?_, rfl, rfl, rfl, rfl, rfl, rfl, rfl, rfl⟩
      · have := hpre x hx; simpa using this
      · rw [hok, hdb, replaceFirst_append _ _ _ _ _
          (fun x hx => by simpa using hpre x hx)]
        simp [replaceFirst, hpe]

/-- Witness for C1: the success branch of `update_makefile_spec` applied
to a one-entry store whose stored `makefiles` list is empty. -/
theorem update_makefile_spec_witness :
    ∃ pre post,
      [newRecord "o" "n" true (-1)] = pre ++ newRecord "o" "n" true (-1) :: post ∧
      (∀ x ∈ pre, keyMatch "o" "n" x = false) ∧
      Database.update_makefile [newRecord "o" "n" true (-1)] "o" "n"
          [⟨"d", true, 1, ["b"], ["h"]⟩] false =
        Except.ok (pre ++
          updatedEntry (newRecord "o" "n" true (-1)) [⟨"d", true, 1, ["b"], ["h"]⟩] :: post) ∧
      (updatedEntry (newRecord "o" "n" true (-1)) [⟨"d", true, 1, ["b"], ["h"]⟩]).compiled = true ∧
      (updatedEntry (newRecord "o" "n" true (-1)) [⟨"d", true, 1, ["b"], ["h"]⟩]).num_makefiles =
        [(⟨"d", true, 1, ["b"], ["h"]⟩ : RepoMakefileEntry)].length ∧
      (updatedEntry (newRecord "o" "n" true (-1)) [⟨"d", true, 1, ["b"], ["h"]⟩]).num_binaries =
        sumBinaries [⟨"d", true, 1, ["b"], ["h"]⟩] ∧
      (updatedEntry (newRecord "o" "n" true (-1)) [⟨"d", true, 1, ["b"], ["h"]⟩]).makefiles =
        [⟨"d", true, 1, ["b"], ["h"]⟩] ∧
      (updatedEntry (newRecord "o" "n" true (-1)) [⟨"d", true, 1, ["b"], ["h"]⟩]).repo_owner =
        (newRecord "o" "n" true (-1)).repo_owner ∧
      (updatedEntry (newRecord "o" "n" true (-1)) [⟨"d", true, 1, ["b"], ["h"]⟩]).repo_name =
        (newRecord "o" "n" true (-1)).repo_name ∧
      (updatedEntry (newRecord "o" "n" true (-1)) [⟨"d", true, 1, ["b"], ["h"]⟩]).clone_successful =
        (newRecord "o" "n" true (-1)).clone_successful ∧
      (updatedEntry (newRecord "o" "n" true (-1)) [⟨"d", true, 1, ["b"], ["h"]⟩]).repo_size =
        (newRecord "o" "n" true (-1)).repo_size :=
  (update_makefile_spec [newRecord "o" "n" true (-1)] "o" "n"
      [⟨"d", true, 1, ["b"], ["h"]⟩] false).2.2
    (newRecord "o" "n" true (-1)) (by decide) (Or.inr (Or.inl rfl))

/-- C2: `add_repo` inserts the default-valued record exactly when the key
is absent (and an immediate `get` returns it); an existing entry is left
untouched whatever the arguments, so a second `add_repo` call on the same
key is a no-op. -/
theorem add_repo_spec (db : List RepoEntry) (o n : String) (cs cs' : Bool)
    (sz sz' : Int) :
    (Database.get db o n = none →
      Database.add_repo db o n cs sz = db ++ [newRecord o n cs sz] ∧
      Database.get (Database.add_repo db o n cs sz) o n = some (newRecord o n cs sz) ∧
      (newRecord o n cs sz).compiled = false ∧
      (newRecord o n cs sz).num_makefiles = 0 ∧
      (newRecord o n cs sz).num_binaries = 0 ∧
      (newRecord o n cs sz).makefiles = []) ∧
    (∀ e, Database.get db o n = some e → Database.add_repo db o n cs sz = db) ∧
    Database.add_repo (Database.add_repo db o n cs sz) o n cs' sz' =
      Database.add_repo db o n cs sz := by
  have hkey : keyMatch o n (newRecord o n cs sz) = true := by
    simp [keyMatch, newRecord]
  have hafter : Database.get db o n = none →
      Database.get (db ++ [newRecord o n cs sz]) o n = some (newRecord o n cs sz) := by
    intro hnone
    unfold Database.get at hnone ⊢
    rw [List.find?_append, hnone, Option.none_or, List.find?_cons_of_pos _ hkey]
  refine ⟨fun hnone => ⟨?_, ?_, rfl, rfl, rfl, rfl⟩, fun e he => ?_, ?_⟩
  · simp [Database.add_repo, hnone]
  · rw [show Database.add_repo db o n cs sz = db ++ [newRecord o n cs sz] from by
      simp [Database.add_repo, hnone]]
    exact hafter hnone
  · simp [Database.add_repo, he]
  · cases hget : Database.get db o n with
    | some e => simp [Database.add_repo, hget]
    | none =>
      have h1 : Database.add_repo db o n cs sz = db ++ [newRecord o n cs sz] := by
        simp [Database.add_repo, hget]
      rw [h1]
      simp [Database.add_repo, hafter hget]

/-- Witness for C2 on the empty store. -/
theorem add_repo_spec_witness :
    Database.add_repo [] "o" "n" true (-1) = [] ++ [newRecord "o" "n" true (-1)] ∧
    Database.get (Database.add_repo [] "o" "n" true (-1)) "o" "n" =
      some (newRecord "o" "n" true (-1)) ∧
    (newRecord "o" "n" true (-1)).compiled = false ∧
    (newRecord "o" "n" true (-1)).num_makefiles = 0 ∧
    (newRecord "o" "n" true (-1)).num_binaries = 0 ∧
    (newRecord "o" "n" true (-1)).makefiles = [] :=
  (add_repo_spec [] "o" "n" true false (-1) 7).1 rfl

/-- C9 counterexample: the store holding exactly one never-compiled entry
is reachable (`add_repo` on the empty store); there the sum of
`num_makefiles` over entries with `compiled=True` is `0`, but
`count_makefiles` does not return it — `next()` on the empty aggregation
cursor raises `StopIteration`. -/
theorem count_makefiles_empty_counterexample :
    Reachable (Database.add_repo [] "a" "b" true (-1)) ∧
    (((Database.add_repo [] "a" "b" true (-1)).filter
        (fun e => e.compiled)).map (fun e => e.num_makefiles)).sum = 0 ∧
    Database.count_makefiles (Database.add_repo [] "a" "b" true (-1)) =
      Except.error "StopIteration" ∧
    Database.count_makefiles (Database.add_repo [] "a" "b" true (-1)) ≠
      Except.ok 0 :=
  ⟨Reachable.add [] "a" "b" true (-1) Reachable.init, rfl, rfl,
    fun h => Except.noConfusion ((rfl :
      Database.count_makefiles (Database.add_repo [] "a" "b" true (-1)) =
        Except.error "StopIteration") ▸ h)⟩

/-- C9 amended: `count_makefiles` / `count_binaries` return the sum of
`num_makefiles` / `num_binaries` over all entries with `compiled=True`
whenever at least one such entry exists; when none exists they raise
`StopIteration` instead of returning 0. -/
theorem aggregate_counts_spec (db : List RepoEntry) :
    ((∃ e ∈ db, e.compiled = true) →
      Database.count_makefiles db =
        Except.ok (((db.filter (fun e => e.compiled)).map
          (fun e => e.num_makefiles)).sum) ∧
      Database.count_binaries db =
        Except.ok (((db.filter (fun e => e.compiled)).map
          (fun e => e.num_binaries)).sum)) ∧
    ((∀ e ∈ db, e.compiled = false) →
      Database.count_makefiles db = Except.error "StopIteration" ∧
      Database.count_binaries db = Except.error "StopIteration") := by
  cases hf : db.filter (fun e => e.compiled) with
  | nil =>
    constructor
    · rintro ⟨e, he, hc⟩
      have hmem : e ∈ db.filter (fun e => e.compiled) :=
        List.mem_filter.mpr ⟨he, hc⟩
      rw [hf] at hmem
      exact absurd hmem (List.not_mem_nil e)
    · intro _
      constructor <;>
        simp [Database.count_makefiles, Database.count_binaries,
          Database.aggregate_sum, hf]
  | cons a l =>
    constructor
    · intro _
      constructor <;>
        simp [Database.count_makefiles, Database.count_binaries,
          Database.aggregate_sum, hf]
    · intro hall
      have ha : a ∈ db.filter (fun e => e.compiled) := by
        rw [hf]; exact List.mem_cons_self a l
      rcases List.mem_filter.mp ha with ⟨hmem, hc⟩
      rw [hall a hmem] at hc
      simp at hc

/-- Witness for C9's amended statement on a store with one compiled
entry and on a store with none. -/
theorem aggregate_counts_spec_witness :
    (Database.count_makefiles [updatedEntry (newRecord "a" "b" true (-1)) []] =
      Except.ok ((([updatedEntry (newRecord "a" "b" true (-1)) []].filter
        (fun e => e.compiled)).map (fun e => e.num_makefiles)).sum) ∧
     Database.count_binaries [updatedEntry (newRecord "a" "b" true (-1)) []] =
      Except.ok ((([updatedEntry (newRecord "a" "b" true (-1)) []].filter
        (fun e => e.compiled)).map (fun e => e.num_binaries)).sum)) ∧
    (Database.count_makefiles [newRecord "a" "b" true (-1)] =
      Except.error "StopIteration" ∧
     Database.count_binaries [newRecord "a" "b" true (-1)] =
      Except.error "StopIteration") :=
  ⟨(aggregate_counts_spec [updatedEntry (newRecord "a" "b" true (-1)) []]).1
      ⟨updatedEntry (newRecord "a" "b" true (-1)) [], by decide, rfl⟩,
    (aggregate_counts_spec [newRecord "a" "b" true (-1)]).2
      (by decide)⟩

/-- `all_equal` is true on lists with at most one element. -/
theorem all_equal_short (xs : List Nat) (h : xs.length ≤ 1) :
    all_equal xs = true := by
  cases xs with
  | nil => rfl
  | cons x rest =>
    cases rest with
    | nil => rfl
    | cons y t => simp at h

/-- C7: `changed_repos` keeps an entry iff some tag's recorded values are
not all equal; its entries carry their original, unmodified series; and a
repository whose every tag has at most one sample is never kept. -/
theorem changed_repos_spec (ri : List (String × InfoDict)) (repo : String)
    (info : InfoDict) :
    ((repo, info) ∈ changed_repos ri ↔
      ((repo, info) ∈ ri ∧
        ∃ vals ∈ infoValues info, all_equal (vals.map Prod.snd) = false)) ∧
    ((∀ vals ∈ infoValues info, vals.length ≤ 1) →
      (repo, info) ∉ changed_repos ri) := by
  constructor
  · rw [changed_repos, List.mem_filter]
    constructor
    · rintro ⟨hmem, hany⟩
      rcases List.any_eq_true.mp hany with ⟨vals, hv, hne⟩
      exact ⟨hmem, vals, hv, by simpa using hne⟩
    · rintro ⟨hmem, vals, hv, hne⟩
      refine ⟨hmem, List.any_eq_true.mpr ⟨vals, hv, ?_⟩⟩
      rw [hne]; rfl
  · intro hshort hmem
    rw [changed_repos, List.mem_filter] at hmem
    rcases List.any_eq_true.mp hmem.2 with ⟨vals, hv, hne⟩
    have : all_equal (vals.map Prod.snd) = true :=
      all_equal_short _ (by rw [List.length_map]; exact hshort vals hv)
    rw [this] at hne
    simp at hne

/-!
## Invariants of `analyze_logs`

All three series of one repository are appended to simultaneously, from
the same matched line, so their timestamp columns stay equal; and keys
enter the association list at most once.
-/

/-- Timestamp alignment of the three series of one repository: the three
timestamp columns are equal. -/
def Aligned (info : InfoDict) : Prop :=
  info.n_part.map Prod.fst = info.n_bin.map Prod.fst ∧
  info.n_bin.map Prod.fst = info.n_tot.map Prod.fst

theorem aligned_emptyInfo : Aligned emptyInfo := ⟨rfl, rfl⟩

theorem aligned_appendSample (p : ParsedLine) (info : InfoDict)
    (h : Aligned info) : Aligned (appendSample p info) := by
  rcases h with ⟨h1, h2⟩
  constructor <;> simp [appendSample, h1, h2]

theorem record_aligned : ∀ (acc : List (String × InfoDict)) (key : String)
    (p : ParsedLine), (∀ e ∈ acc, Aligned e.2) →
    ∀ e ∈ record acc key p, Aligned e.2
  | [], key, p, _, e, he => by
    simp only [record, List.mem_singleton] at he
    subst he
    exact aligned_appendSample p emptyInfo aligned_emptyInfo
  | (k, info) :: rest, key, p, h, e, he => by
    rw [record] at he
    by_cases hk : k = key
    · rw [if_pos hk] at he
      rcases List.mem_cons.mp he with rfl | hmem
      · exact aligned_appendSample p info (h (k, info) (List.mem_cons_self _ _))
      · exact h e (List.mem_cons_of_mem _ hmem)
    · rw [if_neg hk] at he
      rcases List.mem_cons.mp he with rfl | hmem
      · exact h (k, info) (List.mem_cons_self _ _)
      · exact record_aligned rest key p
          (fun x hx => h x (List.mem_cons_of_mem _ hx)) e hmem

theorem record_map_fst : ∀ (acc : List (String × InfoDict)) (key : String)
    (p : ParsedLine),
    (record acc key p).map Prod.fst =
      (if key ∈ acc.map Prod.fst then acc.map Prod.fst
       else acc.map Prod.fst ++ [key])
  | [], key, p => by simp [record]
  | (k, info) :: rest, key, p => by
    by_cases hk : k = key
    · subst hk
      rw [record, if_pos rfl]
      simp
    · rw [record, if_neg hk]
      simp only [List.map_cons]
      rw [record_map_fst rest key p]
      by_cases hmem : key ∈ rest.map Prod.fst
      · rw [if_pos hmem, if_pos (List.mem_cons_of_mem _ hmem)]
      · rw [if_neg hmem, if_neg ?_, List.cons_append]
        intro hc
        rcases List.mem_cons.mp hc with hc | hc
        · exact hk hc.symm
        · exact hmem hc

theorem record_nodup_keys (acc : List (String × InfoDict)) (key : String)
    (p : ParsedLine) (h : (acc.map Prod.fst).Nodup) :
    ((record acc key p).map Prod.fst).Nodup := by
  rw [record_map_fst]
  by_cases hmem : key ∈ acc.map Prod.fst
  · rw [if_pos hmem]; exact h
  · rw [if_neg hmem, List.nodup_append]
    exact ⟨h, List.nodup_singleton key,
      fun a ha hb => hmem (by rcases List.mem_singleton.mp hb with rfl; exact ha)⟩

theorem processLine_inv (acc : List (String × InfoDict)) (line : String)
    (h1 : (acc.map Prod.fst).Nodup) (h2 : ∀ e ∈ acc, Aligned e.2) :
    ((processLine acc line).map Prod.fst).Nodup ∧
    ∀ e ∈ processLine acc line, Aligned e.2 := by
  rw [processLine]
  cases searchLine line with
  | none => exact ⟨h1, h2⟩
  | some p => exact ⟨record_nodup_keys acc _ p h1, record_aligned acc _ p h2⟩

theorem foldl_processLine_inv : ∀ (lines : List String)
    (acc : List (String × InfoDict)), (acc.map Prod.fst).Nodup →
    (∀ e ∈ acc, Aligned e.2) →
    (((lines.foldl processLine acc).map Prod.fst).Nodup ∧
      ∀ e ∈ lines.foldl processLine acc, Aligned e.2)
  | [], acc, h1, h2 => ⟨h1, h2⟩
  | l :: ls, acc, h1, h2 => by
    rw [List.foldl_cons]
    exact foldl_processLine_inv ls (processLine acc l)
      (processLine_inv acc l h1 h2).1 (processLine_inv acc l h1 h2).2

theorem analyze_logs_inv (text : String) :
    (((analyze_logs text).map Prod.fst).Nodup ∧
      ∀ e ∈ analyze_logs text, Aligned e.2) := by
  rw [analyze_logs]
  exact foldl_processLine_inv _ [] List.nodup_nil (fun e he => absurd he (List.not_mem_nil e))

/-- In an association list with `Nodup` keys, a key determines its value. -/
theorem nodup_keys_mem_inj : ∀ (l : List (String × InfoDict)),
    (l.map Prod.fst).Nodup → ∀ (k : String) (v v' : InfoDict),
    (k, v) ∈ l → (k, v') ∈ l → v = v'
  | [], _, k, v, v', h1, _ => absurd h1 (List.not_mem_nil _)
  | a :: rest, h, k, v, v', h1, h2 => by
    simp only [List.map_cons, List.nodup_cons] at h
    rcases List.mem_cons.mp h1 with e1 | m1
    · rcases List.mem_cons.mp h2 with e2 | m2
      · exact congrArg Prod.snd (e1.trans e2.symm)
      · exfalso
        have hin : k ∈ rest.map Prod.fst := List.mem_map.mpr ⟨(k, v'), m2, rfl⟩
        have hk : a.1 = k := by rw [← e1]
        exact h.1 (hk.symm ▸ hin)
    · rcases List.mem_cons.mp h2 with e2 | m2
      · exfalso
        have hin : k ∈ rest.map Prod.fst := List.mem_map.mpr ⟨(k, v), m1, rfl⟩
        have hk : a.1 = k := by rw [← e2]
        exact h.1 (hk.symm ▸ hin)
      · exact nodup_keys_mem_inj rest h.2 k v v' m1 m2

/-- The timestamps of the latest `n_partial` and `n_total` samples of an
aligned series dictionary coincide. -/
theorem aligned_last_fst {info : InfoDict} (h : Aligned info)
    {a b : String × Nat} (ha : info.n_part.getLast? = some a)
    (hb : info.n_tot.getLast? = some b) : a.1 = b.1 := by
  have h3 : info.n_part.map Prod.fst = info.n_tot.map Prod.fst :=
    h.1.trans h.2
  have h4 := congrArg List.getLast? h3
  rw [List.getLast?_map, List.getLast?_map, ha, hb] at h4
  simpa using h4

/-- On pairs with equal first components, the Python tuple comparison is
the comparison of the second components. -/
theorem pyPairLt_of_fst_eq {a b : String × Nat} (h : a.1 = b.1) :
    (pyPairLt a b = true ↔ a.2 < b.2) := by
  rw [pyPairLt, if_pos h]
  exact decide_eq_true_iff

/-- A concrete compilation-summary log line (the end-to-end scenario of
the specification), used to instantiate the analysis theorems. -/
def logLineA : String :=
  "2020-01-01 12:00:00,000 INFO: 3 (2) out of 5 Makefile(s) in foo/bar compiled (partially), yielding 4 binaries"

/-- The series dictionary `analyze_logs` produces for `foo/bar` from
`logLineA` (the captured timestamp carries no milliseconds). -/
def infoA : InfoDict :=
  { n_part := [("2020-01-01 12:00:00", 2)]
    n_bin := [("2020-01-01 12:00:00", 4)]
    n_tot := [("2020-01-01 12:00:00", 5)] }

/-- C10: for every entry of the mapping produced by log parsing, the
three tag series have equal timestamp columns — hence equal lengths and
pointwise-equal timestamps, all three samples of an index coming from
one matched line — and therefore comparing the latest `(timestamp,
value)` pairs of `n_partial` and `n_total` (which is what the Python
tuple comparison does) is equivalent to comparing their latest values. -/
theorem analyze_logs_series_aligned (text : String) (repo : String)
    (info : InfoDict) (hmem : (repo, info) ∈ analyze_logs text) :
    info.n_part.map Prod.fst = info.n_bin.map Prod.fst ∧
    info.n_bin.map Prod.fst = info.n_tot.map Prod.fst ∧
    info.n_part.length = info.n_bin.length ∧
    info.n_bin.length = info.n_tot.length ∧
    (∀ (i : Nat) (h1 : i < info.n_part.length) (h2 : i < info.n_bin.length)
        (h3 : i < info.n_tot.length),
      (info.n_part.get ⟨i, h1⟩).1 = (info.n_bin.get ⟨i, h2⟩).1 ∧
      (info.n_bin.get ⟨i, h2⟩).1 = (info.n_tot.get ⟨i, h3⟩).1) ∧
    (∀ a b, info.n_part.getLast? = some a → info.n_tot.getLast? = some b →
      (pyPairLt a b = true ↔ a.2 < b.2)) := by
  have hal : Aligned info := (analyze_logs_inv text).2 (repo, info) hmem
  rcases hal with ⟨h1, h2⟩
  have hl1 : info.n_part.length = info.n_bin.length := by
    have := congrArg List.length h1; simpa using this
  have hl2 : info.n_bin.length = info.n_tot.length := by
    have := congrArg List.length h2; simpa using this
  refine ⟨h1, h2, hl1, hl2, ?_, ?_⟩
  · intro i hi1 hi2 hi3
    have q1 := congrArg (fun l => l[i]?) h1
    have q2 := congrArg (fun l => l[i]?) h2
    simp only [List.getElem?_map] at q1 q2
    rw [List.getElem?_eq_getElem hi1, List.getElem?_eq_getElem hi2] at q1
    rw [List.getElem?_eq_getElem hi2, List.getElem?_eq_getElem hi3] at q2
    constructor
    · simpa [List.get_eq_getElem] using q1
    · simpa [List.get_eq_getElem] using q2
  · intro a b ha hb
    exact pyPairLt_of_fst_eq (aligned_last_fst ⟨h1, h2⟩ ha hb)

/-- Witness for C10 on the concrete log line: the latest-pair comparison
of `foo/bar` reduces to the value comparison `2 < 5`. -/
theorem analyze_logs_series_aligned_witness :
    (pyPairLt ("2020-01-01 12:00:00", 2) ("2020-01-01 12:00:00", 5) = true ↔
      (2 : Nat) < 5) :=
  (analyze_logs_series_aligned logLineA "foo/bar" infoA (by decide)).2.2.2.2.2
    ("2020-01-01 12:00:00", 2) ("2020-01-01 12:00:00", 5) (by decide) (by decide)

/-- C5: a repository of the parsed mapping, with latest samples `a`/`b`
for `n_partial`/`n_total`, is in the sampler's candidate population
`repos_with_fail` iff its latest `n_partial` value is strictly less than
its latest `n_total` value. -/
theorem repos_with_fail_spec (text : String) (repo : String)
    (info : InfoDict) (a b : String × Nat)
    (hmem : (repo, info) ∈ analyze_logs text)
    (ha : info.n_part.getLast? = some a)
    (hb : info.n_tot.getLast? = some b) :
    (repo ∈ repos_with_fail (analyze_logs text) ↔ a.2 < b.2) := by
  have hinv := analyze_logs_inv text
  have hal : Aligned info := hinv.2 (repo, info) hmem
  have hfst : a.1 = b.1 := aligned_last_fst hal ha hb
  have hcond : lastPairLt info = pyPairLt a b := by
    rw [lastPairLt, ha, hb]
  constructor
  · intro hr
    rcases List.mem_map.mp hr with ⟨x, hx, hx1⟩
    rcases List.mem_filter.mp hx with ⟨hxmem, hxcond⟩
    have hxmem' : (repo, x.2) ∈ analyze_logs text := by
      rw [← hx1]; exact hxmem
    have hv : x.2 = info := nodup_keys_mem_inj _ hinv.1 repo x.2 info hxmem' hmem
    rw [hv, hcond] at hxcond
    exact (pyPairLt_of_fst_eq hfst).mp hxcond
  · intro hlt
    apply List.mem_map.mpr
    refine ⟨(repo, info), List.mem_filter.mpr ⟨hmem, ?_⟩, rfl⟩
    rw [hcond]
    exact (pyPairLt_of_fst_eq hfst).mpr hlt

/-- Witness for C5 on the concrete log line: `foo/bar` is a candidate
because `2 < 5`. -/
theorem repos_with_fail_spec_witness :
    ("foo/bar" ∈ repos_with_fail (analyze_logs logLineA) ↔ (2 : Nat) < 5) :=
  repos_with_fail_spec logLineA "foo/bar" infoA
    ("2020-01-01 12:00:00", 2) ("2020-01-01 12:00:00", 5)
    (by decide) (by decide) (by decide)

/-- Concrete series used to instantiate the change-detector theorem:
the `n_partial` values drift between the two observations. -/
def infoW : InfoDict :=
  { n_part := [("t1", 1), ("t2", 2)]
    n_bin := [("t1", 0), ("t2", 0)]
    n_tot := [("t1", 3), ("t2", 3)] }

/-- The one-repository mapping holding `infoW`. -/
def riW : List (String × InfoDict) := [("a/b", infoW)]

/-- Witness for C7 at the concrete one-repository mapping. -/
theorem changed_repos_spec_witness :
    ((("a/b", infoW) ∈ changed_repos riW ↔
      (("a/b", infoW) ∈ riW ∧
        ∃ vals ∈ infoValues infoW, all_equal (vals.map Prod.snd) = false)) ∧
     ((∀ vals ∈ infoValues infoW, vals.length ≤ 1) →
      ("a/b", infoW) ∉ changed_repos riW)) :=
  changed_repos_spec riW "a/b" infoW

/-- C8 counterexample: the mapping parsed from the scenario log line does
not carry the milliseconds in its timestamps — the `date_time` capture
group of the regex closes before `,\d{3}` — so it differs from the
mapping the claim asserts. -/
theorem analyze_logs_ms_counterexample :
    analyze_logs logLineA ≠
      [("foo/bar",
        { n_part := [("2020-01-01 12:00:00,000", 2)]
          n_bin := [("2020-01-01 12:00:00,000", 4)]
          n_tot := [("2020-01-01 12:00:00,000", 5)] })] := by decide

/-- C8 amended: parsing the single scenario line yields exactly one
sample per tracked tag for `foo/bar` — values 2/4/5 for
`n_partial`/`n_binaries`/`n_total` — with timestamp
`2020-01-01 12:00:00` (the captured group excludes the milliseconds);
`n_success = 3` is captured by the match but tracked in no series; and a
line not matching the grammar is silently skipped. -/
theorem analyze_logs_scenario :
    analyze_logs logLineA = [("foo/bar", infoA)] ∧
    searchLine logLineA =
      some ⟨"2020-01-01 12:00:00", 3, "foo", "bar", 2, 4, 5⟩ ∧
    analyze_logs "unrelated log line" = [] ∧
    analyze_logs ("unrelated log line\n" ++ logLineA) = [("foo/bar", infoA)] :=
  ⟨by decide, by decide, by decide, by decide⟩

/-- `np.random.choice(n, k, replace=False)` succeeds with `k` distinct
indices below `n` whenever `k ≤ n`; `simpleChoice` realises that
contract. -/
theorem simpleChoice_ok (n k : Nat) (h : k ≤ n) :
    ∃ l, simpleChoice n k = Except.ok l ∧ l.Nodup ∧ l.length = k ∧
      ∀ i ∈ l, i < n :=
  ⟨List.range k, by rw [simpleChoice, if_pos h], List.nodup_range k,
    List.length_range k,
    fun i hi => lt_of_lt_of_le (List.mem_range.mp hi) h⟩

/-- `np.random.choice(n, k, replace=False)` raises `ValueError` whenever
`k > n`; `simpleChoice` realises that contract. -/
theorem simpleChoice_err (n k : Nat) (h : n < k) :
    ∃ e, simpleChoice n k = Except.error e :=
  ⟨_, by rw [simpleChoice, if_neg (Nat.not_le.mpr h)]⟩

/-- The candidate population list has no duplicates when the mapping's
keys have none. -/
theorem repos_with_fail_nodup (ri : List (String × InfoDict))
    (h : (ri.map Prod.fst).Nodup) : (repos_with_fail ri).Nodup :=
  (List.Sublist.map Prod.fst (List.filter_sublist ri)).nodup h

/-- A true sampling condition exposes the two latest samples it
compares. -/
theorem lastPairLt_eq_true {info : InfoDict} (h : lastPairLt info = true) :
    ∃ a b, info.n_part.getLast? = some a ∧ info.n_tot.getLast? = some b ∧
      pyPairLt a b = true := by
  rw [lastPairLt] at h
  cases ha : info.n_part.getLast? with
  | none =>
    rw [ha] at h
    cases hb : info.n_tot.getLast? <;> rw [hb] at h <;> simp at h
  | some a =>
    cases hb : info.n_tot.getLast? with
    | none => rw [ha, hb] at h; simp at h
    | some b => rw [ha, hb] at h; exact ⟨a, b, rfl, rfl, h⟩

/-- The oversize filter is a pair of filters of the drawn list. -/
theorem filterLarge_eq (ri : List (String × InfoDict)) (drawn : List String) :
    filterLarge ri drawn =
      (drawn.filter (fun r => lastTotalVal ri r ≤ 50),
       (drawn.filter (fun r => !(lastTotalVal ri r ≤ 50 : Bool))).map
         (fun r => (r, lastTotalVal ri r))) := by
  have aux : ∀ (l : List String) (acc : List String × List (String × Nat)),
      l.foldl (filterStep ri) acc =
        (acc.1 ++ l.filter (fun r => lastTotalVal ri r ≤ 50),
         acc.2 ++ (l.filter (fun r => !(lastTotalVal ri r ≤ 50 : Bool))).map
           (fun r => (r, lastTotalVal ri r))) := by
    intro l
    induction l with
    | nil => intro acc; simp
    | cons r rest ih =>
      intro acc
      rw [List.foldl_cons, ih]
      by_cases hr : lastTotalVal ri r ≤ 50
      · simp [filterStep, hr, List.filter_cons]
      · simp [filterStep, hr, List.filter_cons]
  rw [filterLarge, aux]
  simp

/-- C6: with the pseudo-random draw satisfying numpy's documented
contract for `replace=False`, the sampler raises an explicit error
exactly when the request (100) exceeds the candidate population, and a
successful draw has no duplicates, has size 100, contains only
repositories whose latest `n_partial` value is below their latest
`n_total` value, and the subsequent ceiling step keeps exactly the drawn
repositories with latest `n_total ≤ 50` while reporting the others with
their counts. -/
theorem sampler_spec (choice : Nat → Nat → Except String (List Nat))
    (ri : List (String × InfoDict))
    (hnd : (ri.map Prod.fst).Nodup)
    (hal : ∀ e ∈ ri, Aligned e.2)
    (hok : ∀ n k, k ≤ n → ∃ l, choice n k = Except.ok l ∧ l.Nodup ∧
      l.length = k ∧ ∀ i ∈ l, i < n)
    (herr : ∀ n k, n < k → ∃ e, choice n k = Except.error e) :
    ((repos_with_fail ri).length < 100 →
      ∃ e, sampleFailed choice ri = Except.error e) ∧
    (100 ≤ (repos_with_fail ri).length →
      ∃ drawn, sampleFailed choice ri = Except.ok drawn ∧
        drawn.Nodup ∧ drawn.length = 100 ∧
        (∀ repo ∈ drawn, ∃ info a b, (repo, info) ∈ ri ∧
          info.n_part.getLast? = some a ∧ info.n_tot.getLast? = some b ∧
          a.2 < b.2) ∧
        filterLarge ri drawn =
          (drawn.filter (fun r => lastTotalVal ri r ≤ 50),
           (drawn.filter (fun r => !(lastTotalVal ri r ≤ 50 : Bool))).map
             (fun r => (r, lastTotalVal ri r)))) := by
  constructor
  · intro hlt
    rcases herr _ _ hlt with ⟨e, he⟩
    exact ⟨e, by simp [sampleFailed, he]⟩
  · intro hge
    rcases hok _ _ hge with ⟨l, hc, hln, hll, hlb⟩
    refine ⟨l.map (fun i => (repos_with_fail ri).getD i ""), ?_, ?_, ?_, ?_,
      filterLarge_eq ri _⟩
    · simp [sampleFailed, hc]
    · refine List.Nodup.map_on ?_ hln
      intro i hi j hj hEq
      have hi' : i < (repos_with_fail ri).length := hlb i hi
      have hj' : j < (repos_with_fail ri).length := hlb j hj
      rw [List.getD_eq_getElem _ _ hi', List.getD_eq_getElem _ _ hj'] at hEq
      exact ((repos_with_fail_nodup ri hnd).getElem_inj_iff).mp hEq
    · simp [hll]
    · intro repo hrepo
      rcases List.mem_map.mp hrepo with ⟨i, hi, hrw⟩
      have hi' : i < (repos_with_fail ri).length := hlb i hi
      rw [List.getD_eq_getElem _ _ hi'] at hrw
      have hmem : repo ∈ repos_with_fail ri := hrw ▸ List.getElem_mem hi'
      rcases List.mem_map.mp hmem with ⟨x, hx, hx1⟩
      rcases List.mem_filter.mp hx with ⟨hxmem, hxcond⟩
      rcases lastPairLt_eq_true hxcond with ⟨a, b, ha, hb, hab⟩
      have hfst : a.1 = b.1 := aligned_last_fst (hal x hxmem) ha hb
      refine ⟨x.2, a, b, ?_, ha, hb, (pyPairLt_of_fst_eq hfst).mp hab⟩
      rw [← hx1]; exact hxmem

/-- `Aligned` is a decidable property (it is a pair of list equalities),
so concrete instantiations can be checked by evaluation. -/
instance (info : InfoDict) : Decidable (Aligned info) :=
  inferInstanceAs (Decidable (_ = _ ∧ _ = _))

/-- Witness for C6: the sampler theorem instantiated with the contract
realisation `simpleChoice` and the one-candidate mapping parsed from the
concrete log line (there the population-too-small branch is the live
one). -/
theorem sampler_spec_witness :
    ((repos_with_fail (analyze_logs logLineA)).length < 100 →
      ∃ e, sampleFailed simpleChoice (analyze_logs logLineA) = Except.error e) ∧
    (100 ≤ (repos_with_fail (analyze_logs logLineA)).length →
      ∃ drawn, sampleFailed simpleChoice (analyze_logs logLineA) = Except.ok drawn ∧
        drawn.Nodup ∧ drawn.length = 100 ∧
        (∀ repo ∈ drawn, ∃ info a b, (repo, info) ∈ analyze_logs logLineA ∧
          info.n_part.getLast? = some a ∧ info.n_tot.getLast? = some b ∧
          a.2 < b.2) ∧
        filterLarge (analyze_logs logLineA) drawn =
          (drawn.filter (fun r => lastTotalVal (analyze_logs logLineA) r ≤ 50),
           (drawn.filter
              (fun r => !(lastTotalVal (analyze_logs logLineA) r ≤ 50 : Bool))).map
             (fun r => (r, lastTotalVal (analyze_logs logLineA) r)))) :=
  sampler_spec simpleChoice (analyze_logs logLineA) (by decide) (by decide)
    simpleChoice_ok simpleChoice_err

/-- The one-entry store of the reconciliation scenario: the stored
Makefile directory is `src/a` relative to the repository root, recorded
under the compilation host's four-segment storage prefix
(`/usr/src/repo`), as the `[4:]` normalization in the source assumes. -/
def dbRecon : List RepoEntry :=
  [{ repo_owner := "own"
     repo_name := "nm"
     clone_successful := true
     repo_size := 10
     compiled := true
     num_makefiles := 1
     num_binaries := 1
     makefiles := [{ directory := "/usr/src/repo/src/a"
                     successful := true
                     num_binaries := 1
                     binaries := ["bin"]
                     sha256 := ["h"] }] }]

/-- C3 amended: for the stored entry whose one recorded Makefile
directory is `src/a` (under the storage prefix the `[4:]` slice strips)
and the discovered directories `src/a` and `src/b` (as `find_makefiles`
yields them, under the clone root `test_compile/own/nm`), the report
emits exactly one row per discovered directory, in order, with the
directory column rendered as `owner/name/<path relative to the
repository root>`: `src/a` with empty status and `src/b` with status
`"Failed"`.  In general a discovered directory's status is empty exactly
when its normalized form lies in the recorded-successful set derived
from the stored Makefile directories. -/
theorem recon_scenario :
    reconReport dbRecon "own/nm"
        ["test_compile/own/nm/src/a", "test_compile/own/nm/src/b"] =
      Except.ok [("own/nm", "own/nm/src/a", ""),
                 ("own/nm", "own/nm/src/b", "Failed")] ∧
    successMakefiles "own" "nm"
        [{ directory := "/usr/src/repo/src/a"
           successful := true
           num_binaries := 1
           binaries := ["bin"]
           sha256 := ["h"] }] = ["own/nm/src/a"] ∧
    (∀ (repo : String) (success : List String) (makefile : String),
      reconRow repo success makefile =
        (repo, normalizeDiscovered makefile,
          if normalizeDiscovered makefile ∈ success then "" else "Failed")) := by
  refine ⟨rfl, rfl, ?_⟩
  intro repo success makefile
  by_cases hm : normalizeDiscovered makefile ∈ success
  · simp [reconRow, hm]
  · simp [reconRow, hm]

/-- C4 counterexample: on the empty store (where `get` returns `None`)
the reconciliation loop does not produce all-`"Failed"` rows — the
claim's predicted output — but raises a `TypeError`, because the source
subscripts the absent entry (`entry['makefiles']`). -/
theorem recon_absent_counterexample :
    reconReport [] "own/nm" ["test_compile/own/nm/src/a"] =
      Except.error "TypeError: 'NoneType' object is not subscriptable" ∧
    reconReport [] "own/nm" ["test_compile/own/nm/src/a"] ≠
      Except.ok [("own/nm", "own/nm/src/a", "Failed")] :=
  ⟨rfl, fun h => Except.noConfusion ((rfl : reconReport [] "own/nm"
      ["test_compile/own/nm/src/a"] =
    Except.error "TypeError: 'NoneType' object is not subscriptable") ▸ h)⟩

/-- C4 amended: for every store and repository key with no entry
(`get` returns absent), the reconciliation step does not fall back to an
empty success set: it raises an error (subscripting `None`), whatever
the discovered directories are. -/
theorem recon_absent_spec (db : List RepoEntry) (repo o n : String)
    (discovered : List String) (hsplit : pySplitSlash repo = [o, n])
    (hget : Database.get db o n = none) :
    reconReport db repo discovered =
      Except.error "TypeError: 'NoneType' object is not subscriptable" := by
  rw [reconReport, hsplit]
  simp [hget]

/-- Witness for C4's amended statement on the empty store. -/
theorem recon_absent_spec_witness :
    reconReport [] "own/nm" ["test_compile/own/nm/src/a"] =
      Except.error "TypeError: 'NoneType' object is not subscriptable" :=
  recon_absent_spec [] "own/nm" "own" "nm" ["test_compile/own/nm/src/a"]
    (by decide) rfl

/-- The store of the fully literal reading of the reconciliation
scenario: the stored `directory` field is the bare repository-relative
path `src/a`, with no storage prefix. -/
def dbLiteral : List RepoEntry :=
  [{ repo_owner := "own"
     repo_name := "nm"
     clone_successful := true
     repo_size := 10
     compiled := true
     num_makefiles := 1
     num_binaries := 1
     makefiles := [{ directory := "src/a"
                     successful := true
                     num_binaries := 1
                     binaries := ["bin"]
                     sha256 := ["h"] }] }]

/-- C3 counterexample: the reconciliation report never emits the rows
`(repo, "src/a", "")` and `(repo, "src/b", "Failed")`.  The directory
column of a row is `"/".join(makefile.split("/")[1:])`, which keeps the
`owner/name` prefix of the clone root: on the realised scenario inputs
the rows are `(own/nm, own/nm/src/a, "")` and
`(own/nm, own/nm/src/b, "Failed")`, not the claimed ones; and under the
fully literal reading — the stored directory field is the bare `src/a`
and the discovered paths are the bare `src/a`, `src/b` — the `[4:]` and
`[1:]` slices mangle both sides and the rows are
`(own/nm, a, "Failed")` and `(own/nm, b, "Failed")`. -/
theorem recon_rows_counterexample :
    reconReport dbRecon "own/nm"
        ["test_compile/own/nm/src/a", "test_compile/own/nm/src/b"] =
      Except.ok [("own/nm", "own/nm/src/a", ""),
                 ("own/nm", "own/nm/src/b", "Failed")] ∧
    reconReport dbRecon "own/nm"
        ["test_compile/own/nm/src/a", "test_compile/own/nm/src/b"] ≠
      Except.ok [("own/nm", "src/a", ""), ("own/nm", "src/b", "Failed")] ∧
    reconReport dbLiteral "own/nm" ["src/a", "src/b"] =
      Except.ok [("own/nm", "a", "Failed"), ("own/nm", "b", "Failed")] ∧
    reconReport dbLiteral "own/nm" ["src/a", "src/b"] ≠
      Except.ok [("own/nm", "src/a", ""), ("own/nm", "src/b", "Failed")] :=
  ⟨rfl,
   fun h => absurd (Except.ok.inj h) (by decide),
   rfl,
   fun h => absurd (Except.ok.inj h) (by decide)⟩
